import Mathlib

/-!
Verification of the PCjs `diskdump` command-line tool
(`src/tools/diskdump/modules/diskdump.js`) against its natural-language
specification.

The JavaScript source is shallowly embedded below:

* strings / byte buffers are modelled as `List Char` (text content) or
  `List Nat` (binary content);
* the module-global file budget `nMaxFiles` is threaded explicitly as an
  `Int` argument (JavaScript decrements it below zero on the last loop
  test, so `Int` rather than `Nat` keeps the model exact);
* the filesystem seen by `writeDisk` / `compareDisks` / the
  `--checkarchive` task is a partial map `String → Option FSFile`;
* the external `DiskImage` capability is opaque: a handle carries the
  bytes its two serializers produce.

Timestamps (`stats.mtime`, the volume-label date) are not modelled: no
claim mentions them and they flow unchanged into records.
-/

namespace DiskDump

/-! ### Characters and small string helpers

JavaScript `String.prototype.toUpperCase` restricted to ASCII, and
suffix / prefix tests, modelled directly over `List Char` so that every
definition evaluates inside the kernel. -/

def upperChar (c : Char) : Char :=
  if 97 ≤ c.toNat ∧ c.toNat ≤ 122 then Char.ofNat (c.toNat - 32) else c

def upperL (l : List Char) : List Char := l.map upperChar

/-- `l` ends with the suffix `suf` (JavaScript `String.prototype.endsWith`). -/
def endsWithL (l suf : List Char) : Bool :=
  l.reverse.take suf.length == suf.reverse

/-- Case-sensitive `endsWith` on `String`s, as JavaScript's `endsWith`. -/
def endsWithPlain (s suf : String) : Bool := endsWithL s.data suf.data

/-- `sFileUC.endsWith(suffix)` where `sFileUC = sFile.toUpperCase()`,
the pattern used throughout `writeDisk`. -/
def endsWithUpper (s suf : String) : Bool := endsWithL (upperL s.data) suf.data

/-- `sName.charAt(0) == '.'` — the hidden-file test of `readDirFiles`. -/
def startsWithDot (s : String) : Bool :=
  match s.data with
  | [] => false
  | c :: _ => c = '.'

/-! ### Text-file recognition and 7-bit test (diskdump.js lines 33, 76-98) -/

/-- `asTextFileExts` (line 33). -/
def asTextFileExts : List String :=
  [".MD", ".ME", ".BAS", ".BAT", ".ASM", ".LRF", ".MAK", ".TXT", ".XML"]

/-- `isTextFile(sFile)` (lines 91-98): uppercase the name and test each
known text extension as a suffix. -/
def isTextFile (sFile : String) : Bool :=
  asTextFileExts.any fun ext => endsWithL (upperL sFile.data) ext.data

/-- `isASCII(data)` (lines 76-83): true when no char code has bit 7 set. -/
def isASCII (data : List Char) : Bool :=
  data.all fun c => c.toNat &&& 0x80 == 0

/-! ### Line-ending normalization (diskdump.js line 200)

The source expression is
`data.replace(/\n/g, "\r\n").replace(/\r+/g, "\r")`:
first every LF is expanded to CR LF, then every run of CRs is collapsed
to a single CR. -/

/-- `data.replace(/\n/g, "\r\n")`. -/
def expandLF : List Char → List Char
  | [] => []
  | c :: rest => if c = '\n' then '\r' :: '\n' :: expandLF rest else c :: expandLF rest

/-- `s.replace(/\r+/g, "\r")`: collapse each maximal run of CRs to one CR. -/
def collapseCR : List Char → List Char
  | [] => []
  | [c] => [c]
  | c1 :: c2 :: rest =>
    if c1 = '\r' ∧ c2 = '\r' then collapseCR (c2 :: rest)
    else c1 :: collapseCR (c2 :: rest)

/-- The full replacement of line 200, in the source's order:
expand LF to CR LF first, then collapse CR runs. -/
def normalizeLineEndings (data : List Char) : List Char :=
  collapseCR (expandLF data)

/-- The transformation in the order the specification words it
("first collapsing any run of bare CR into a single CR, then expanding
each LF into CRLF") — stated only to be compared against
`normalizeLineEndings`, which follows the source. -/
def specOrderNormalize (data : List Char) : List Char :=
  expandLF (collapseCR data)

/-- Diagnostic raised by the normalization step (lines 198-207):
`replaced` for the "replaced line endings" warning, `nonAscii` for the
"non-ASCII data" warning, `quiet` when nothing is printed. -/
inductive TextDiag where
  | quiet
  | replaced
  | nonAscii
deriving DecidableEq

/-- Lines 198-207 applied to the decoded content of a recognized text
file: if 7-bit clean, normalize and warn exactly when the result differs
from the input; otherwise leave the content unchanged and warn. -/
def applyTextNormalization (data : List Char) : List Char × TextDiag :=
  if isASCII data then
    let dataNew := normalizeLineEndings data
    if dataNew ≠ data then (dataNew, .replaced) else (dataNew, .quiet)
  else (data, .nonAscii)

/-! ### Structural facts about the normalization -/

/-- The output contains no two adjacent CRs. -/
def noDoubleCR (l : List Char) : Prop :=
  List.Chain' (fun a b => ¬(a = '\r' ∧ b = '\r')) l

/-- Every LF in the list is immediately preceded by a CR. -/
def lfPrecededByCR (l : List Char) : Prop :=
  l.head? ≠ some '\n' ∧ List.Chain' (fun a b => b = '\n' → a = '\r') l

instance (l : List Char) : Decidable (noDoubleCR l) := by
  unfold noDoubleCR; infer_instance

instance (l : List Char) : Decidable (lfPrecededByCR l) := by
  unfold lfPrecededByCR; infer_instance

/-- Input already in CR LF form: every CR is immediately followed by an
LF and every LF immediately preceded by a CR. -/
def crlfNormalized : List Char → Bool
  | [] => true
  | '\r' :: '\n' :: rest => crlfNormalized rest
  | c :: rest => c ≠ '\r' && c ≠ '\n' && crlfNormalized rest

/-! ### The file-tree reader (diskdump.js lines 100-215)

A filesystem subtree as `readDirFiles` observes it: `fs.readdirSync`
order is the constructor order; a file entry carries its decoded
content (`List Char`) and whether `readFile` succeeds on it; `fs.statSync`
distinguishes directories.  Mutual inductives (instead of a nested
`List`) keep every recursion structural, so all definitions evaluate in
the kernel. -/

mutual
inductive FSEntry where
  | file (name : String) (content : List Char) (readable : Bool)
  | dir (name : String) (entries : FSList)
inductive FSList where
  | nil
  | cons (e : FSEntry) (rest : FSList)
end

def FSEntry.name : FSEntry → String
  | .file n _ _ => n
  | .dir n _ => n

def FSList.length : FSList → Nat
  | .nil => 0
  | .cons _ rest => 1 + FSList.length rest

/-- `DiskImage.ATTR.VOLUME`.  Modelled from the spec: the `DiskImage`
module is outside this tool; the spec only requires the volume-label
attribute to be a distinguished flag, distinct from the subdirectory
flag and from 0. -/
def ATTR_VOLUME : Nat := 8

/-- `DiskImage.ATTR.SUBDIR`.  Modelled from the spec, as `ATTR_VOLUME`. -/
def ATTR_SUBDIR : Nat := 16

/-- `DiskImage.PCJS_LABEL`.  Modelled from the spec: the fixed built-in
volume label, "currently PCJS" per the comment on lines 143-150. -/
def PCJS_LABEL : String := "PCJS"

/- The `FileData` record built per entry (name, attr, size, data,
children); `path` and `date` are omitted — no claim depends on them. -/
mutual
inductive FileData where
  | mk (name : String) (attr : Nat) (size : Int) (data : List Char) (files : FileList)
inductive FileList where
  | nil
  | cons (f : FileData) (rest : FileList)
end

def FileData.name : FileData → String
  | .mk n _ _ _ _ => n

def FileData.attr : FileData → Nat
  | .mk _ a _ _ _ => a

def FileData.size : FileData → Int
  | .mk _ _ s _ _ => s

def FileData.data : FileData → List Char
  | .mk _ _ _ d _ => d

def FileData.files : FileData → FileList
  | .mk _ _ _ _ f => f

def consOpt : Option FileData → FileList → FileList
  | none, l => l
  | some f, l => .cons f l

def FileList.append : FileList → FileList → FileList
  | .nil, l => l
  | .cons f rest, l => .cons f (FileList.append rest l)

/- Total number of `FileData` records at every depth. -/
mutual
def countFD : FileData → Nat
  | .mk _ _ _ _ files => 1 + countFL files
def countFL : FileList → Nat
  | .nil => 0
  | .cons f rest => countFD f + countFL rest
end

/- Number of records carrying the volume-label attribute, at every depth. -/
mutual
def countVolumeFD : FileData → Nat
  | .mk _ attr _ _ files =>
    (if attr = ATTR_VOLUME then 1 else 0) + countVolumeFL files
def countVolumeFL : FileList → Nat
  | .nil => 0
  | .cons f rest => countVolumeFD f + countVolumeFL rest
end

/-- Lines 191-211: processing of one non-directory entry.  `fText`
selects text decoding; `readFile` yields nothing on failure, and — the
JavaScript falsy test `if (!data) continue` — an empty **string** (text
mode) is also skipped, while an empty `DataBuffer` (binary mode) is
kept.  In text mode, 7-bit-clean content gets its line endings
normalized; the record's size is the final content length. -/
def processFile (fNormalize : Bool) (name : String) (content : List Char)
    (readable : Bool) : Option FileData :=
  let fText := fNormalize && isTextFile name
  if readable = false then none
  else if fText && content == [] then none
  else
    let data := if fText then (applyTextNormalization content).1 else content
    some (.mk name 0 (data.length : Int) data .nil)

/- The loop of lines 173-214.  The `for` loop tests `nMaxFiles > 0`
before each iteration and decrements it in the update clause, i.e.
**after** the body — so after the recursive descent when the entry is a
directory.  `continue` (hidden entry, failed/empty read) still runs the
update clause.  `readDirEntry` returns the optional record for one
entry together with the budget as it stands after the entry's body. -/
mutual
def readDirEntry (fNormalize : Bool) : FSEntry → Int → Option FileData × Int
  | e, n =>
    if startsWithDot (FSEntry.name e) then (none, n)
    else
      match e with
      | .file name content readable => (processFile fNormalize name content readable, n)
      | .dir name entries =>
        let r := readDirLoop fNormalize entries n
        (some (.mk name ATTR_SUBDIR (-1) [] r.1), r.2)
def readDirLoop (fNormalize : Bool) : FSList → Int → FileList × Int
  | .nil, n => (.nil, n)
  | .cons e rest, n =>
    if 0 < n then
      let r := readDirEntry fNormalize e n
      let r2 := readDirLoop fNormalize rest (r.2 - 1)
      (consOpt r.1 r2.1, r2.2)
    else (.nil, n)
end

/-- Lines 151-155: the two special label tokens. -/
def resolveLabelToken (sLabel : String) : String :=
  if sLabel == "none" then "" else if sLabel == "default" then PCJS_LABEL else sLabel

/-- `readDirFiles(sDir, fNormalize, sLabel)` (lines 137-215): resolve
the label token, put the label record (attr VOLUME, size 0) first when
a label remains, then run the entry loop.  Recursion into
subdirectories (line 190) passes no label, which is `readDirLoop`
directly. -/
def readDirFiles (fNormalize : Bool) (entries : FSList) (sLabel : String)
    (nMaxFiles : Int) : FileList × Int :=
  let lbl := resolveLabelToken sLabel
  let r := readDirLoop fNormalize entries nMaxFiles
  if lbl ≠ "" then (.cons (.mk lbl ATTR_VOLUME 0 [] .nil) r.1, r.2) else r

/-- `readDir(sDir, fNormalize, sLabel, kbTarget, nMax)` (lines 110-127):
an unset or empty label defaults to `basename(sDir)` (passed here as
`dirBase`); the budget is `nMax || 256`, so unset or 0 means 256.
Building the `DiskImage` from the records is the external capability;
the observable modelled here is the record list and the final budget.
`kbTarget` only feeds that external build and is omitted. -/
def readDir (dirBase : String) (entries : FSList) (fNormalize : Bool)
    (sLabel : Option String) (nMax : Option Nat) : FileList × Int :=
  let lbl := match sLabel with
    | none => dirBase
    | some s => if s == "" then dirBase else s
  let nMaxFiles : Int := match nMax with
    | none => 256
    | some n => if n = 0 then 256 else (n : Int)
  readDirFiles fNormalize entries lbl nMaxFiles

/- Entries of the list at every depth (what "a tree with more entries
than the maximum" counts). -/
mutual
def countEntriesE : FSEntry → Nat
  | .file _ _ _ => 1
  | .dir _ es => 1 + countEntriesL es
def countEntriesL : FSList → Nat
  | .nil => 0
  | .cons e rest => countEntriesE e + countEntriesL rest
end

/-- A flat tree: every entry is a visible, readable plain file. -/
def isFlatVisible : FSList → Bool
  | .nil => true
  | .cons (.file name _ readable) rest =>
    !startsWithDot name && readable && isFlatVisible rest
  | .cons (.dir _ _) _ => false

def countVolumeO : Option FileData → Nat
  | none => 0
  | some f => countVolumeFD f

/-- Concrete tree for C2: a subdirectory holding three files, then one
more top-level file — 5 entries in all. -/
def exTreeC2 : FSList :=
  .cons (.dir "SUB"
    (.cons (.file "A" ['a'] true)
      (.cons (.file "B" ['b'] true)
        (.cons (.file "C" ['c'] true) .nil))))
    (.cons (.file "E" ['e'] true) .nil)

/-- Concrete tree for C9: a hidden entry followed by two plain files. -/
def exTreeC9 : FSList :=
  .cons (.file ".hidden" ['h'] true)
    (.cons (.file "A" ['a'] true)
      (.cons (.file "B" ['b'] true) .nil))


/-- Three visible plain files, for the C2 witness. -/
def flat3 : FSList :=
  .cons (.file "A" ['a'] true)
    (.cons (.file "B" ['b'] true)
      (.cons (.file "C" ['c'] true) .nil))

/-! ### Filesystem model, `writeDisk`, `compareDisks`, `--checkarchive`
(diskdump.js lines 36-50, 253-274, 294-332, 462-527)

A file on disk is its bytes plus whether its mode forbids writes
(`chmodSync(sFile, 0o444)`); the filesystem is a partial map from path
to file. -/

structure FSFile where
  bytes : List Nat
  readOnly : Bool
deriving DecidableEq

def FS : Type := String → Option FSFile

/-- `fs.writeFileSync` (fresh file, default writable mode). -/
def fsWrite (fs : FS) (p : String) (f : FSFile) : FS :=
  fun q => if q = p then some f else fs q

/-- `fs.unlinkSync`. -/
def fsUnlink (fs : FS) (p : String) : FS :=
  fun q => if q = p then none else fs q

/-- `fs.renameSync(src, dst)`. -/
def fsRename (fs : FS) (src dst : String) : FS :=
  fun q => if q = dst then fs src else if q = src then none else fs q

/-- `fs.chmodSync(p, 0o444)`: strip write permission. -/
def chmodReadOnly (fs : FS) (p : String) : FS :=
  fun q => if q = p then (fs p).map (fun f => { f with readOnly := true }) else fs q

/-- `readFile(sFile, null)` (lines 260-274) on the modelled filesystem:
the bytes when the file exists and is readable, nothing otherwise. -/
def readFileBytes (fs : FS) (p : String) : Option (List Nat) :=
  (fs p).map (fun f => f.bytes)

/-- `compareDisks(sDisk1, sDisk2)` (lines 42-50):
`db1 && db2 && db1.compare(db2) || false`.  `DataBuffer.compare` is in
the external `nodebuffer` module; modelled from the spec (the JSDoc on
line 40): true exactly when the two buffers' contents are equal. -/
def compareDisks (fs : FS) (s1 s2 : String) : Bool :=
  match readFileBytes fs s1, readFileBytes fs s2 with
  | some b1, some b2 => b1 == b2
  | _, _ => false

/-- The external `DiskImage` handle as `writeDisk` and the
`--checkarchive` task observe it: `json` is what `di.getJSON(...)`
serializes (as bytes; empty means the falsy empty string), `binary` the
flat image `di.getData` fills, `getDataOk` whether `di.getData`
succeeds. -/
structure DiskHandle where
  json : List Nat
  binary : List Nat
  getDataOk : Bool
deriving DecidableEq

/-- Outcome reported by `writeDisk` (its `printf` calls). -/
inductive WriteResult where
  | written
  | noData
  | alreadyExists
deriving DecidableEq

/-- `writeDisk(sFile, di, fLegacy, indent, fOverwrite)` (lines 294-332):
refuse to touch an existing file unless `fOverwrite`; an uppercase name
ending in `.JSON` selects the JSON serialization (falsy when empty),
any other name the raw binary buffer (absent when `getData` fails);
after writing, a name ending in `.IMG` is chmodded read-only.
`fLegacy`/`indent` only parametrize the opaque serializer and are
absorbed into `di.json`. -/
def writeDisk (fs : FS) (sFile : String) (di : DiskHandle) (fOverwrite : Bool) :
    FS × WriteResult :=
  let fExists := (fs sFile).isSome
  if !fExists || fOverwrite then
    let dataOpt : Option (List Nat) :=
      if endsWithUpper sFile ".JSON" then
        if di.json ≠ [] then some di.json else none
      else
        if di.getDataOk then some di.binary else none
    match dataOpt with
    | some data =>
      let fs1 := if fExists then fsUnlink fs sFile else fs
      let fs2 := fsWrite fs1 sFile ⟨data, false⟩
      let fs3 := if endsWithUpper sFile ".IMG" then chmodReadOnly fs2 sFile else fs2
      (fs3, .written)
    | none => (fs, .noData)
  else (fs, .alreadyExists)

/-- The `--checkarchive` block of `main` (lines 497-523), given a
successfully acquired archive handle `di`: write the temporary JSON
(overwrite on); when the archive artifact is a `.img` file, rebuild the
image through the JSON round-trip (the handle's `binary`), write it to
the temporary `.img` path (overwrite on), and byte-compare; on mismatch
print the "unsuccessfully rebuilt" warning, keep the temporary binary,
and — since `if (!warning)` guards the whole promote/delete block — do
nothing else; otherwise delete the temporary binary, then promote the
temporary JSON over the canonical file (`--rebuild`, commit mode) or
delete it (dry run).  Returns the filesystem and the warning flag. -/
def checkArchive (fs : FS) (rebuild : Bool) (di : DiskHandle)
    (sFile sArchiveFile sTempJSON sTempIMG : String) : FS × Bool :=
  let fs1 := (writeDisk fs sTempJSON di true).1
  if endsWithPlain sArchiveFile ".img" then
    let fs2 := (writeDisk fs1 sTempIMG di true).1
    if compareDisks fs2 sTempIMG sArchiveFile then
      let fs3 := fsUnlink fs2 sTempIMG
      (if rebuild then fsRename fs3 sTempJSON sFile else fsUnlink fs3 sTempJSON, false)
    else
      (fs2, true)
  else
    (if rebuild then fsRename fs1 sTempJSON sFile else fsUnlink fs1 sTempJSON, false)

/-- Concrete filesystem for the C1 counterexample: the archived binary
`A.img` (bytes 0,1) and the canonical JSON `C.json` (bytes 9). -/
def fsC1 : FS :=
  fun p => if p = "A.img" then some ⟨[0, 1], false⟩
    else if p = "C.json" then some ⟨[9], false⟩ else none

/-- Handle for the C1 counterexample: the rebuilt binary (0,2) differs
from the archived one in one byte. -/
def diC1 : DiskHandle := ⟨[7], [0, 2], true⟩

/-- Existing file for the C7 witness. -/
def fsC7 : FS := fun p => if p = "X.json" then some ⟨[1], false⟩ else none

theorem expandLF_cr (rest : List Char) :
    expandLF ('\r' :: rest) = '\r' :: expandLF rest := by
  simp [expandLF]

theorem expandLF_lf (rest : List Char) :
    expandLF ('\n' :: rest) = '\r' :: '\n' :: expandLF rest := by
  simp [expandLF]

theorem expandLF_other (c : Char) (hc : c ≠ '\n') (rest : List Char) :
    expandLF (c :: rest) = c :: expandLF rest := by
  simp [expandLF, hc]

theorem collapseCR_cons_ne (c : Char) (hc : c ≠ '\r') (l : List Char) :
    collapseCR (c :: l) = c :: collapseCR l := by
  cases l with
  | nil => simp [collapseCR]
  | cons d rest => simp [collapseCR, hc]

theorem collapseCR_crcr (l : List Char) :
    collapseCR ('\r' :: '\r' :: l) = collapseCR ('\r' :: l) := by
  simp [collapseCR]

theorem collapseCR_cr_ne (c : Char) (hc : c ≠ '\r') (l : List Char) :
    collapseCR ('\r' :: c :: l) = '\r' :: collapseCR (c :: l) := by
  simp [collapseCR, hc]

theorem collapseCR_head (l : List Char) : (collapseCR l).head? = l.head? := by
  induction l using collapseCR.induct with
  | case1 => rfl
  | case2 c => rfl
  | case3 c1 c2 rest h ih =>
    rw [collapseCR, if_pos h, ih]
    simp [h.1, h.2]
  | case4 c1 c2 rest h ih =>
    rw [collapseCR, if_neg h]
    rfl

theorem noDoubleCR_collapseCR (l : List Char) : noDoubleCR (collapseCR l) := by
  induction l using collapseCR.induct with
  | case1 => simp [collapseCR, noDoubleCR]
  | case2 c => simp [collapseCR, noDoubleCR]
  | case3 c1 c2 rest h ih =>
    rw [collapseCR, if_pos h]
    exact ih
  | case4 c1 c2 rest h ih =>
    rw [collapseCR, if_neg h]
    unfold noDoubleCR at ih ⊢
    rw [List.chain'_cons']
    refine ⟨?_, ih⟩
    intro b hb
    rw [collapseCR_head] at hb
    simp only [List.head?_cons, Option.mem_def, Option.some.injEq] at hb
    intro hcc
    exact h ⟨hcc.1, hb ▸ hcc.2⟩

theorem expandLF_head_ne_lf (l : List Char) : (expandLF l).head? ≠ some '\n' := by
  cases l with
  | nil => simp [expandLF]
  | cons c rest =>
    by_cases hc : c = '\n'
    · subst hc; rw [expandLF_lf]; simp
    · rw [expandLF_other c hc]; simp [hc]

theorem lfPrecededByCR_expandLF (l : List Char) : lfPrecededByCR (expandLF l) := by
  induction l with
  | nil => simp [expandLF, lfPrecededByCR]
  | cons c rest ih =>
    by_cases hc : c = '\n'
    · subst hc
      rw [expandLF_lf]
      refine ⟨by simp, ?_⟩
      rw [List.chain'_cons]
      refine ⟨fun _ => rfl, ?_⟩
      rw [List.chain'_cons']
      refine ⟨?_, ih.2⟩
      intro b hb hbn
      rw [hbn] at hb
      exact absurd hb (expandLF_head_ne_lf rest)
    · rw [expandLF_other c hc]
      refine ⟨by simp [hc], ?_⟩
      rw [List.chain'_cons']
      refine ⟨?_, ih.2⟩
      intro b hb hbn
      rw [hbn] at hb
      exact absurd hb (expandLF_head_ne_lf rest)

theorem lfPrecededByCR_collapseCR :
    ∀ l : List Char, lfPrecededByCR l → lfPrecededByCR (collapseCR l)
  | [], h => h
  | [c], h => by simpa [collapseCR] using h
  | c1 :: c2 :: rest, h => by
    obtain ⟨hhead, hchain⟩ := h
    rw [List.chain'_cons] at hchain
    obtain ⟨h12, hchain2⟩ := hchain
    by_cases hb : c1 = '\r' ∧ c2 = '\r'
    · rw [collapseCR, if_pos hb]
      exact lfPrecededByCR_collapseCR (c2 :: rest) ⟨by simp [hb.2], hchain2⟩
    · rw [collapseCR, if_neg hb]
      by_cases hc2 : c2 = '\n'
      · have hc1 : c1 = '\r' := h12 hc2
        subst hc1
        subst hc2
        rw [collapseCR_cons_ne '\n' (by decide) rest]
        rw [List.chain'_cons'] at hchain2
        have hrest : lfPrecededByCR rest := by
          refine ⟨?_, hchain2.2⟩
          intro hh
          have := hchain2.1 '\n' (by rw [hh]; rfl) rfl
          exact absurd this (by decide)
        have ihrest := lfPrecededByCR_collapseCR rest hrest
        refine ⟨by simp, ?_⟩
        rw [List.chain'_cons]
        refine ⟨fun _ => rfl, ?_⟩
        rw [List.chain'_cons']
        refine ⟨?_, ihrest.2⟩
        intro b hbmem hbn
        rw [collapseCR_head, hbn] at hbmem
        exact absurd hbmem hrest.1
      · have ih2 := lfPrecededByCR_collapseCR (c2 :: rest) ⟨by simp [hc2], hchain2⟩
        refine ⟨by simpa using hhead, ?_⟩
        rw [List.chain'_cons']
        refine ⟨?_, ih2.2⟩
        intro b hbmem hbn
        rw [collapseCR_head] at hbmem
        simp only [List.head?_cons, Option.mem_def, Option.some.injEq] at hbmem
        exact absurd (hbmem ▸ hbn) hc2

theorem normalizeLineEndings_crlf (rest : List Char) :
    normalizeLineEndings ('\r' :: '\n' :: rest) =
      '\r' :: '\n' :: normalizeLineEndings rest := by
  unfold normalizeLineEndings
  rw [expandLF_cr, expandLF_lf, collapseCR_crcr, collapseCR_cr_ne _ (by decide),
    collapseCR_cons_ne _ (by decide)]

theorem normalizeLineEndings_other (c : Char) (hr : c ≠ '\r') (hn : c ≠ '\n')
    (rest : List Char) :
    normalizeLineEndings (c :: rest) = c :: normalizeLineEndings rest := by
  unfold normalizeLineEndings
  rw [expandLF_other c hn, collapseCR_cons_ne c hr]

/-- On input already in CR LF form the normalization is the identity. -/
theorem normalizeLineEndings_of_crlfNormalized (s : List Char)
    (hc : crlfNormalized s = true) : normalizeLineEndings s = s := by
  induction s using crlfNormalized.induct with
  | case1 => rfl
  | case2 rest ih =>
    rw [crlfNormalized] at hc
    rw [normalizeLineEndings_crlf, ih hc]
  | case3 c rest h1 ih =>
    rw [crlfNormalized] at hc
    · simp only [Bool.and_eq_true, decide_eq_true_eq] at hc
      rw [normalizeLineEndings_other c hc.1.1 hc.1.2, ih hc.2]
    · exact h1

/-- C3 is false as stated.  On input CR LF the source transformation
(line 200: expand LF to CR LF **first**, collapse CR runs **second**)
leaves the content unchanged and prints nothing, while the claimed
collapse-first / expand-second order would produce CR CR LF; and on
`a LF CR CR b` the source emits the "replaced line endings" diagnostic
even though the length did not change. -/
theorem claim_C3_counterexample :
    (applyTextNormalization ['\r', '\n'] = (['\r', '\n'], TextDiag.quiet) ∧
      specOrderNormalize ['\r', '\n'] = ['\r', '\r', '\n'] ∧
      (['\r', '\n'] : List Char) ≠ ['\r', '\r', '\n']) ∧
    (applyTextNormalization ['a', '\n', '\r', '\r', 'b'] =
        (['a', '\r', '\n', '\r', 'b'], TextDiag.replaced) ∧
      (['a', '\n', '\r', '\r', 'b'] : List Char).length =
        (['a', '\r', '\n', '\r', 'b'] : List Char).length) := by
  decide

/-- C3 (amended): when text normalization applies and the content is
7-bit clean, the content is transformed by **first expanding each LF
into CR LF and then collapsing every run of CRs into a single CR** (so
the result has no adjacent CRs and every LF is preceded by a CR), with
the diagnostic emitted exactly when the **content** changed (not the
length); content that is not 7-bit clean is left unchanged and the
non-ASCII diagnostic is emitted instead. -/
theorem claim_C3_amended (data : List Char) :
    (isASCII data = true →
      (applyTextNormalization data).1 = collapseCR (expandLF data) ∧
      ((applyTextNormalization data).2 = TextDiag.replaced ↔
        collapseCR (expandLF data) ≠ data) ∧
      noDoubleCR (applyTextNormalization data).1 ∧
      lfPrecededByCR (applyTextNormalization data).1) ∧
    (isASCII data = false →
      applyTextNormalization data = (data, TextDiag.nonAscii)) := by
  constructor
  · intro h7
    have key : applyTextNormalization data =
        (normalizeLineEndings data,
          if normalizeLineEndings data ≠ data then TextDiag.replaced
          else TextDiag.quiet) := by
      by_cases hch : normalizeLineEndings data = data
      · simp [applyTextNormalization, h7, hch]
      · simp [applyTextNormalization, h7, hch]
    rw [key]
    refine ⟨rfl, ?_, noDoubleCR_collapseCR _, lfPrecededByCR_collapseCR _
      (lfPrecededByCR_expandLF data)⟩
    by_cases hch : normalizeLineEndings data = data
    · simp [hch]
      exact hch
    · simp [hch]
      exact hch
  · intro h7
    simp [applyTextNormalization, h7]

/-- Witness for C3 (amended): `a LF b` is 7-bit clean and becomes
`a CR LF b` with the diagnostic, and content holding the non-ASCII char
`é` suppresses normalization. -/
theorem claim_C3_witness :
    ((applyTextNormalization "a\nb".data).1 = collapseCR (expandLF "a\nb".data) ∧
      ((applyTextNormalization "a\nb".data).2 = TextDiag.replaced ↔
        collapseCR (expandLF "a\nb".data) ≠ "a\nb".data) ∧
      noDoubleCR (applyTextNormalization "a\nb".data).1 ∧
      lfPrecededByCR (applyTextNormalization "a\nb".data).1) ∧
    applyTextNormalization "é".data = ("é".data, TextDiag.nonAscii) :=
  ⟨(claim_C3_amended "a\nb".data).1 (by decide),
    (claim_C3_amended "é".data).2 (by decide)⟩

/-- C4: text normalization is idempotent on already-normalized input —
for every 7-bit-clean content whose line terminators are all CR LF, the
normalization of line 200 returns the content byte-identically and the
per-file step emits no diagnostic. -/
theorem claim_C4_theorem (s : List Char) (h7 : isASCII s = true)
    (hc : crlfNormalized s = true) :
    normalizeLineEndings s = s ∧
    applyTextNormalization s = (s, TextDiag.quiet) := by
  have hid := normalizeLineEndings_of_crlfNormalized s hc
  refine ⟨hid, ?_⟩
  simp [applyTextNormalization, h7, hid]

/-- Witness for C4 at the concrete already-CRLF content
`AB CR LF CD CR LF`. -/
theorem claim_C4_witness :
    normalizeLineEndings "AB\r\nCD\r\n".data = "AB\r\nCD\r\n".data ∧
    applyTextNormalization "AB\r\nCD\r\n".data = ("AB\r\nCD\r\n".data, TextDiag.quiet) :=
  claim_C4_theorem "AB\r\nCD\r\n".data (by decide) (by decide)

/-! ### Walk lemmas -/

theorem readDirLoop_nil (fN : Bool) (n : Int) : readDirLoop fN .nil n = (.nil, n) := rfl

theorem readDirLoop_cons_pos (fN : Bool) (e : FSEntry) (rest : FSList) (n : Int)
    (h : 0 < n) :
    readDirLoop fN (.cons e rest) n =
      (consOpt (readDirEntry fN e n).1
          (readDirLoop fN rest ((readDirEntry fN e n).2 - 1)).1,
        (readDirLoop fN rest ((readDirEntry fN e n).2 - 1)).2) := by
  rw [readDirLoop]
  simp only [if_pos h]

theorem readDirLoop_cons_nonpos (fN : Bool) (e : FSEntry) (rest : FSList) (n : Int)
    (h : ¬ 0 < n) :
    readDirLoop fN (.cons e rest) n = (.nil, n) := by
  rw [readDirLoop]
  simp only [if_neg h]

theorem readDirEntry_hidden (fN : Bool) (e : FSEntry) (n : Int)
    (h : startsWithDot (FSEntry.name e) = true) :
    readDirEntry fN e n = (none, n) := by
  rw [readDirEntry.eq_def]
  simp only [h, if_true]

theorem readDirEntry_file (fN : Bool) (name : String) (content : List Char)
    (readable : Bool) (n : Int) (h : startsWithDot name = false) :
    readDirEntry fN (.file name content readable) n =
      (processFile fN name content readable, n) := by
  rw [readDirEntry.eq_def]
  simp [FSEntry.name, h]

theorem readDirEntry_dir (fN : Bool) (name : String) (es : FSList) (n : Int)
    (h : startsWithDot name = false) :
    readDirEntry fN (.dir name es) n =
      (some (.mk name ATTR_SUBDIR (-1) [] (readDirLoop fN es n).1),
        (readDirLoop fN es n).2) := by
  rw [readDirEntry.eq_def]
  simp [FSEntry.name, h]

theorem processFile_unreadable (fN : Bool) (name : String) (c : List Char) :
    processFile fN name c false = none := by
  simp [processFile]

theorem processFile_binary (name : String) (c : List Char) :
    processFile false name c true = some (.mk name 0 (c.length : Int) c .nil) := by
  simp [processFile]

theorem processFile_textEmpty (name : String) (h : isTextFile name = true) :
    processFile true name [] true = none := by
  simp [processFile, h]

theorem processFile_nonTextName (name : String) (c : List Char)
    (h : isTextFile name = false) :
    processFile true name c true = some (.mk name 0 (c.length : Int) c .nil) := by
  simp [processFile, h]

theorem flat_count : ∀ (l : FSList) (n : Nat), isFlatVisible l = true →
    countFL (readDirLoop false l (n : Int)).1 = min n (FSList.length l)
  | .nil, n, _ => by
    simp [readDirLoop_nil, countFL, FSList.length]
  | .cons (.file name c r) rest, n, hl => by
    simp only [isFlatVisible, Bool.and_eq_true, Bool.not_eq_true'] at hl
    obtain ⟨⟨hdot, hread⟩, hrest⟩ := hl
    subst hread
    match n with
    | 0 =>
      rw [readDirLoop_cons_nonpos _ _ _ _ (by omega)]
      simp [countFL, FSList.length]
    | (m + 1) =>
      have hpos : (0 : Int) < ((m + 1 : Nat) : Int) := by positivity
      rw [readDirLoop_cons_pos _ _ _ _ hpos,
        readDirEntry_file _ _ _ _ _ hdot, processFile_binary]
      have hcast : ((m + 1 : Nat) : Int) - 1 = ((m : Nat) : Int) := by push_cast; ring
      simp only [hcast]
      have ih := flat_count rest m hrest
      simp only [consOpt, countFL, countFD, FSList.length] at ih ⊢
      omega
  | .cons (.dir name es) rest, n, hl => by
    simp [isFlatVisible] at hl

theorem countVolumeO_processFile (fN : Bool) (name : String) (c : List Char)
    (r : Bool) : countVolumeO (processFile fN name c r) = 0 := by
  simp only [processFile]
  split
  · rfl
  · split
    · rfl
    · simp [countVolumeO, countVolumeFD, countVolumeFL, ATTR_VOLUME]

mutual
theorem countVolumeO_readDirEntry (fN : Bool) (e : FSEntry) (n : Int) :
    countVolumeO (readDirEntry fN e n).1 = 0 := by
  by_cases h : startsWithDot (FSEntry.name e) = true
  · rw [readDirEntry_hidden fN e n h]
    rfl
  · rw [Bool.not_eq_true] at h
    cases e with
    | file name c r =>
      rw [readDirEntry_file fN name c r n h]
      exact countVolumeO_processFile fN name c r
    | dir name es =>
      rw [readDirEntry_dir fN name es n h]
      have hrec := countVolumeFL_readDirLoop fN es n
      simp [countVolumeO, countVolumeFD, ATTR_VOLUME, ATTR_SUBDIR, hrec]
theorem countVolumeFL_readDirLoop (fN : Bool) (l : FSList) (n : Int) :
    countVolumeFL (readDirLoop fN l n).1 = 0 := by
  cases l with
  | nil => rfl
  | cons e rest =>
    by_cases hp : 0 < n
    · rw [readDirLoop_cons_pos fN e rest n hp]
      have h1 := countVolumeO_readDirEntry fN e n
      have h2 := countVolumeFL_readDirLoop fN rest ((readDirEntry fN e n).2 - 1)
      cases hre : (readDirEntry fN e n).1 with
      | none =>
        rw [hre] at h1
        simpa [consOpt] using h2
      | some f =>
        rw [hre] at h1
        simp only [countVolumeO] at h1
        simp [consOpt, countVolumeFL, h1, h2]
    · rw [readDirLoop_cons_nonpos fN e rest n hp]
      rfl
end

/-- C2 is false as stated.  `exTreeC2` has 5 entries; ingesting it with
a maximum of 2 yields **3** records, not 2: the loop's budget test runs
before a directory entry's body, but the decrement for that entry runs
only after its children were recursively walked, so the subdirectory
record itself escapes the exhausted budget. -/
theorem claim_C2_counterexample :
    countEntriesL exTreeC2 = 5 ∧ (2 : Nat) < 5 ∧
    countFL (readDir "D" exTreeC2 false (some "none") (some 2)).1 = 3 ∧
    (3 : Nat) ≠ 2 := by
  decide

/-- C2 (amended): the remaining-file budget is one counter shared
across the entire recursive walk (default 256 when `nMax` is unset),
decremented once per visited entry; ingesting a **flat** tree (no
subdirectories, all entries visible and readable) with at least `nMax`
entries yields exactly `nMax` FileRecords, later entries being silently
omitted; with subdirectories the total can exceed `nMax` (see the
counterexample), because a directory entry's own decrement happens only
after its children are walked. -/
theorem claim_C2_amended (base : String) (l : FSList) (fN : Bool)
    (lbl : Option String) (nMax : Nat) (h0 : 0 < nMax)
    (hflat : isFlatVisible l = true) (hlen : nMax ≤ FSList.length l) :
    readDir base l fN lbl none = readDir base l fN lbl (some 256) ∧
    countFL (readDir base l false (some "none") (some nMax)).1 = nMax := by
  constructor
  · rfl
  · have hne : ¬ (nMax = 0) := by omega
    have hfc := flat_count l nMax hflat
    simp [readDir, readDirFiles, resolveLabelToken, hne]
    omega

/-- Witness for C2 (amended): three flat files with a budget of 2 yield
exactly 2 records. -/
theorem claim_C2_witness :
    readDir "D" flat3 false (some "none") none =
      readDir "D" flat3 false (some "none") (some 256) ∧
    countFL (readDir "D" flat3 false (some "none") (some 2)).1 = 2 :=
  claim_C2_amended "D" flat3 false (some "none") 2 (by decide) (by decide) (by decide)

/-- C5: volume-label resolution — "none" yields zero label records;
"default" yields exactly one label record named `PCJS_LABEL`; any other
non-empty string is used verbatim; an omitted label falls back to the
base name of the root directory; the label record has attr VOLUME and
size 0 and sits first in the top-level list; the entry walk itself (and
hence every recursively-ingested subdirectory) produces no volume-label
record at any depth. -/
theorem claim_C5_theorem (base : String) (entries : FSList) (fN : Bool) (n : Int)
    (s : String) (hs1 : s ≠ "none") (hs2 : s ≠ "default") (hs3 : s ≠ "")
    (nMax : Nat) (hnm : nMax ≠ 0) :
    countVolumeFL (readDirFiles fN entries "none" n).1 = 0 ∧
    ((readDirFiles fN entries "default" n).1 =
        .cons (.mk PCJS_LABEL ATTR_VOLUME 0 [] .nil) (readDirLoop fN entries n).1 ∧
      countVolumeFL (readDirFiles fN entries "default" n).1 = 1) ∧
    (readDirFiles fN entries s n).1 =
      .cons (.mk s ATTR_VOLUME 0 [] .nil) (readDirLoop fN entries n).1 ∧
    readDir base entries fN none (some nMax) =
      readDirFiles fN entries base (nMax : Int) ∧
    countVolumeFL (readDirLoop fN entries n).1 = 0 := by
  have hloop := countVolumeFL_readDirLoop fN entries n
  have e1 : (s == "none") = false := by simp [hs1]
  have e2 : (s == "default") = false := by simp [hs2]
  refine ⟨?_, ⟨?_, ?_⟩, ?_, ?_, hloop⟩
  · unfold readDirFiles
    simp [resolveLabelToken, hloop]
  · unfold readDirFiles
    simp [resolveLabelToken, PCJS_LABEL]
  · unfold readDirFiles
    simp [resolveLabelToken, PCJS_LABEL, countVolumeFL, countVolumeFD,
      ATTR_VOLUME, hloop]
  · unfold readDirFiles
    simp [resolveLabelToken, e1, e2, hs3]
  · unfold readDir
    simp [hnm]

/-- Witness for C5 at a concrete empty subtree and verbatim label. -/
theorem claim_C5_witness :
    countVolumeFL (readDirFiles false FSList.nil "none" 3).1 = 0 ∧
    ((readDirFiles false FSList.nil "default" 3).1 =
        .cons (.mk PCJS_LABEL ATTR_VOLUME 0 [] .nil) (readDirLoop false FSList.nil 3).1 ∧
      countVolumeFL (readDirFiles false FSList.nil "default" 3).1 = 1) ∧
    (readDirFiles false FSList.nil "MYLABEL" 3).1 =
      .cons (.mk "MYLABEL" ATTR_VOLUME 0 [] .nil) (readDirLoop false FSList.nil 3).1 ∧
    readDir "DISK" FSList.nil false none (some 7) =
      readDirFiles false FSList.nil "DISK" (7 : Nat) ∧
    countVolumeFL (readDirLoop false FSList.nil 3).1 = 0 :=
  claim_C5_theorem "DISK" FSList.nil false 3 "MYLABEL"
    (by decide) (by decide) (by decide) 7 (by decide)

/-- C8: with normalization enabled, a zero-length file with a
recognized text extension is read as an empty string, fails the falsy
test `if (!data) continue` exactly like a read failure, and is dropped
(while still consuming one budget unit); the same empty file is kept as
a zero-size record when normalization is off or the extension is not a
recognized text extension (its empty `DataBuffer` is truthy). -/
theorem claim_C8_theorem (name name2 : String) (rest : FSList) (n : Int)
    (hn : 0 < n) (ht : isTextFile name = true) (hv : startsWithDot name = false)
    (ht2 : isTextFile name2 = false) (hv2 : startsWithDot name2 = false) :
    readDirLoop true (.cons (.file name [] true) rest) n =
      readDirLoop true rest (n - 1) ∧
    readDirLoop false (.cons (.file name [] true) rest) n =
      (.cons (.mk name 0 0 [] .nil) (readDirLoop false rest (n - 1)).1,
        (readDirLoop false rest (n - 1)).2) ∧
    readDirLoop true (.cons (.file name2 [] true) rest) n =
      (.cons (.mk name2 0 0 [] .nil) (readDirLoop true rest (n - 1)).1,
        (readDirLoop true rest (n - 1)).2) := by
  refine ⟨?_, ?_, ?_⟩
  · rw [readDirLoop_cons_pos _ _ _ _ hn, readDirEntry_file _ _ _ _ _ hv,
      processFile_textEmpty name ht]
    rfl
  · rw [readDirLoop_cons_pos _ _ _ _ hn, readDirEntry_file _ _ _ _ _ hv,
      processFile_binary]
    rfl
  · rw [readDirLoop_cons_pos _ _ _ _ hn, readDirEntry_file _ _ _ _ _ hv2,
      processFile_nonTextName _ _ ht2]
    rfl

/-- Witness for C8: the empty `EMPTY.TXT` is dropped under
normalization but kept (size 0) without it, and the empty `EMPTY.BIN`
is kept even under normalization. -/
theorem claim_C8_witness :
    readDirLoop true (.cons (.file "EMPTY.TXT" [] true) .nil) 1 =
      readDirLoop true .nil 0 ∧
    readDirLoop false (.cons (.file "EMPTY.TXT" [] true) .nil) 1 =
      (.cons (.mk "EMPTY.TXT" 0 0 [] .nil) (readDirLoop false .nil 0).1,
        (readDirLoop false .nil 0).2) ∧
    readDirLoop true (.cons (.file "EMPTY.BIN" [] true) .nil) 1 =
      (.cons (.mk "EMPTY.BIN" 0 0 [] .nil) (readDirLoop true .nil 0).1,
        (readDirLoop true .nil 0).2) := by
  have h := claim_C8_theorem "EMPTY.TXT" "EMPTY.BIN" .nil 1 (by decide)
    (by decide) (by decide) (by decide) (by decide)
  simpa using h

/-- C9: every enumerated entry consumes one budget unit even when it
produces no record — a hidden entry (name starting with '.') and a file
whose read fails both just decrement the counter — so a walk can return
strictly fewer records than the budget while later entries are still
omitted: on `exTreeC9` (hidden + "A" + "B") with budget 2, only "A" is
returned (1 < 2) and "B" is omitted. -/
theorem claim_C9_theorem :
    (∀ (fN : Bool) (e : FSEntry) (rest : FSList) (n : Int), 0 < n →
      startsWithDot (FSEntry.name e) = true →
      readDirLoop fN (.cons e rest) n = readDirLoop fN rest (n - 1)) ∧
    (∀ (fN : Bool) (name : String) (content : List Char) (rest : FSList)
      (n : Int), 0 < n → startsWithDot name = false →
      readDirLoop fN (.cons (.file name content false) rest) n =
        readDirLoop fN rest (n - 1)) ∧
    ((readDirLoop false exTreeC9 2).1 = .cons (.mk "A" 0 1 ['a'] .nil) .nil ∧
      countFL (readDirLoop false exTreeC9 2).1 = 1 ∧ (1 : Nat) < 2 ∧
      FSList.length exTreeC9 = 3) := by
  refine ⟨?_, ?_, rfl, by decide, by decide, by decide⟩
  · intro fN e rest n hn hh
    rw [readDirLoop_cons_pos _ _ _ _ hn, readDirEntry_hidden _ _ _ hh]
    rfl
  · intro fN name content rest n hn hv
    rw [readDirLoop_cons_pos _ _ _ _ hn, readDirEntry_file _ _ _ _ _ hv,
      processFile_unreadable]
    rfl

/-- Witness for C9: a hidden file and an unreadable file each consume a
budget unit and produce nothing. -/
theorem claim_C9_witness :
    readDirLoop false (.cons (.file ".x" ['h'] true) .nil) 1 =
      readDirLoop false .nil 0 ∧
    readDirLoop true (.cons (.file "F" ['f'] false) .nil) 1 =
      readDirLoop true .nil 0 := by
  have h := claim_C9_theorem
  exact ⟨by simpa using h.1 false (.file ".x" ['h'] true) .nil 1 (by decide) (by decide),
    by simpa using h.2.1 true "F" ['f'] .nil 1 (by decide) (by decide)⟩

/-! ### writeDisk lemmas -/

theorem writeDisk_json_spec (fs : FS) (p : String) (di : DiskHandle) (fOv : Bool)
    (hgo : (!(fs p).isSome || fOv) = true)
    (hj : endsWithUpper p ".JSON" = true) (hni : endsWithUpper p ".IMG" = false)
    (hne : di.json ≠ []) (q : String) :
    (writeDisk fs p di fOv).2 = .written ∧
    (writeDisk fs p di fOv).1 q =
      (if q = p then some ⟨di.json, false⟩ else fs q) := by
  constructor
  · simp only [writeDisk, hgo]
    simp [hj, hni, hne]
  · simp only [writeDisk, hgo]
    by_cases hq : q = p <;>
      by_cases hE : (fs p).isSome <;>
        simp [hj, hni, hne, fsWrite, fsUnlink, chmodReadOnly, hq, hE]

theorem writeDisk_binary_spec (fs : FS) (p : String) (di : DiskHandle) (fOv : Bool)
    (hgo : (!(fs p).isSome || fOv) = true)
    (hnj : endsWithUpper p ".JSON" = false) (hok : di.getDataOk = true)
    (q : String) :
    (writeDisk fs p di fOv).2 = .written ∧
    (writeDisk fs p di fOv).1 q =
      (if q = p then some ⟨di.binary, endsWithUpper p ".IMG"⟩ else fs q) := by
  constructor
  · simp only [writeDisk, hgo]
    by_cases himg : endsWithUpper p ".IMG" = true <;> simp [hnj, hok, himg]
  · simp only [writeDisk, hgo]
    by_cases himg : endsWithUpper p ".IMG" = true <;>
      by_cases hq : q = p <;>
        by_cases hE : (fs p).isSome <;>
          simp [hnj, hok, himg, fsWrite, fsUnlink, chmodReadOnly, hq, hE]

theorem writeDisk_frame (fs : FS) (p : String) (di : DiskHandle) (fOv : Bool)
    (q : String) (hq : q ≠ p) : (writeDisk fs p di fOv).1 q = fs q := by
  by_cases hgo : (!(fs p).isSome || fOv) = true
  · by_cases hJ : endsWithUpper p ".JSON" = true
    · by_cases hne : di.json = []
      · simp only [writeDisk, hgo]
        simp [hJ, hne]
      · simp only [writeDisk, hgo]
        by_cases hE : (fs p).isSome <;>
          by_cases himg : endsWithUpper p ".IMG" = true <;>
            simp [hJ, hne, himg, hE, fsWrite, fsUnlink, chmodReadOnly, hq]
    · by_cases hok : di.getDataOk = true
      · simp only [writeDisk, hgo]
        by_cases hE : (fs p).isSome <;>
          by_cases himg : endsWithUpper p ".IMG" = true <;>
            simp [hJ, hok, himg, hE, fsWrite, fsUnlink, chmodReadOnly, hq]
      · simp only [writeDisk, hgo]
        simp [hJ, hok]
  · have hE : (fs p).isSome = true := by
      by_contra hc
      rw [Bool.not_eq_true] at hc
      simp [hc] at hgo
    have hOv : fOv = false := by
      by_contra hc
      rw [Bool.not_eq_false] at hc
      simp [hc] at hgo
    rw [Option.isSome_iff_exists] at hE
    obtain ⟨v, hv⟩ := hE
    simp [writeDisk, hv, hOv]

/-- C7: `writeDisk` never modifies an existing output file unless the
overwrite flag is set — when the target exists and `fOverwrite` is
false, the filesystem is returned untouched and the only effect is the
"exists, use --overwrite" report. -/
theorem claim_C7_theorem (fs : FS) (p : String) (di : DiskHandle)
    (h : (fs p).isSome = true) :
    writeDisk fs p di false = (fs, WriteResult.alreadyExists) := by
  unfold writeDisk
  simp [h]

/-- Witness for C7: an existing `X.json` is left alone. -/
theorem claim_C7_witness :
    writeDisk fsC7 "X.json" diC1 false = (fsC7, WriteResult.alreadyExists) :=
  claim_C7_theorem fsC7 "X.json" diC1 (by decide)

/-- C6 is false as stated: writing the binary image to `out.bin`
(an extension that is neither `.json` nor `.img`) succeeds but leaves
the file **writable** — only `.IMG` names get `chmodSync(0o444)`
(line 321), not every binary output. -/
theorem claim_C6_counterexample :
    (writeDisk (fun _ => none) "out.bin" diC1 false).2 = WriteResult.written ∧
    (writeDisk (fun _ => none) "out.bin" diC1 false).1 "out.bin" =
      some ⟨[0, 2], false⟩ := by
  decide

/-- C6 (amended): a name ending in ".json" (case-insensitive) selects
the JSON serialization, any other extension selects the raw binary
buffer, and a written binary file is left read-only exactly when its
name ends in ".img" (case-insensitive); other binary outputs keep a
writable mode. -/
theorem claim_C6_amended (fs : FS) (p : String) (di : DiskHandle)
    (hnew : fs p = none) (hjson : di.json ≠ []) (hok : di.getDataOk = true) :
    (endsWithUpper p ".JSON" = true → endsWithUpper p ".IMG" = false →
      (writeDisk fs p di false).2 = .written ∧
      (writeDisk fs p di false).1 p = some ⟨di.json, false⟩) ∧
    (endsWithUpper p ".JSON" = false →
      (writeDisk fs p di false).2 = .written ∧
      (writeDisk fs p di false).1 p =
        some ⟨di.binary, endsWithUpper p ".IMG"⟩) := by
  have hgo : (!(fs p).isSome || false) = true := by simp [hnew]
  constructor
  · intro hj hni
    have h := writeDisk_json_spec fs p di false hgo hj hni hjson p
    simpa using h
  · intro hnj
    have h := writeDisk_binary_spec fs p di false hgo hnj hok p
    simpa using h

/-- Witness for C6 (amended): `A.Json` gets the JSON bytes, `B.img`
gets the binary bytes read-only (`endsWithUpper "B.img" ".IMG"` holds). -/
theorem claim_C6_witness :
    ((writeDisk (fun _ => none) "A.Json" diC1 false).2 = WriteResult.written ∧
      (writeDisk (fun _ => none) "A.Json" diC1 false).1 "A.Json" =
        some ⟨diC1.json, false⟩) ∧
    ((writeDisk (fun _ => none) "B.img" diC1 false).2 = WriteResult.written ∧
      (writeDisk (fun _ => none) "B.img" diC1 false).1 "B.img" =
        some ⟨diC1.binary, endsWithUpper "B.img" ".IMG"⟩) :=
  ⟨(claim_C6_amended (fun _ => none) "A.Json" diC1 rfl (by decide) rfl).1
      (by decide) (by decide),
    (claim_C6_amended (fun _ => none) "B.img" diC1 rfl (by decide) rfl).2
      (by decide)⟩

/-- C1 is false as stated.  With the archived `A.img` = bytes (0,1),
rebuilt bytes (0,2) (one byte flipped) and canonical `C.json` = (9):
the warning is emitted and the temporary binary kept, but — because
`if (!warning)` guards the entire promote/delete block (lines 517-523)
— the temporary JSON `T.json` is **retained**, not deleted, in dry-run
mode, and in commit mode (`--rebuild`) it is **not** renamed onto
`C.json`, whose bytes stay (9). -/
theorem claim_C1_counterexample :
    (checkArchive fsC1 true diC1 "C.json" "A.img" "T.json" "T.img").2 = true ∧
    (checkArchive fsC1 true diC1 "C.json" "A.img" "T.json" "T.img").1 "T.img" =
      some ⟨[0, 2], true⟩ ∧
    (checkArchive fsC1 true diC1 "C.json" "A.img" "T.json" "T.img").1 "T.json" =
      some ⟨[7], false⟩ ∧
    (checkArchive fsC1 true diC1 "C.json" "A.img" "T.json" "T.img").1 "C.json" =
      some ⟨[9], false⟩ ∧
    (checkArchive fsC1 false diC1 "C.json" "A.img" "T.json" "T.img").1 "T.json" =
      some ⟨[7], false⟩ := by
  decide

/-- C1 (amended): after a flagged mismatch the warning is emitted and
the temporary binary is retained (freshly written, read-only), and the
temporary JSON is **also retained — neither deleted in dry-run mode nor
promoted in commit mode** (`if (!warning)` skips the whole block); in
both modes every other path, the canonical JSON file included, is left
untouched by this task. -/
theorem claim_C1_amended (fs : FS) (rebuild : Bool) (di : DiskHandle)
    (sFile sArchiveFile sTempJSON sTempIMG : String)
    (harc : endsWithPlain sArchiveFile ".img" = true)
    (hTJj : endsWithUpper sTempJSON ".JSON" = true)
    (hTJi : endsWithUpper sTempJSON ".IMG" = false)
    (hTIj : endsWithUpper sTempIMG ".JSON" = false)
    (hTIi : endsWithUpper sTempIMG ".IMG" = true)
    (hjson : di.json ≠ []) (hok : di.getDataOk = true)
    (hne1 : sTempJSON ≠ sTempIMG)
    (hne2 : sArchiveFile ≠ sTempJSON) (hne3 : sArchiveFile ≠ sTempIMG)
    (arch : FSFile) (hfs : fs sArchiveFile = some arch)
    (hmis : ¬ di.binary = arch.bytes) :
    (checkArchive fs rebuild di sFile sArchiveFile sTempJSON sTempIMG).2 = true ∧
    (checkArchive fs rebuild di sFile sArchiveFile sTempJSON sTempIMG).1 sTempIMG =
      some ⟨di.binary, true⟩ ∧
    (checkArchive fs rebuild di sFile sArchiveFile sTempJSON sTempIMG).1 sTempJSON =
      some ⟨di.json, false⟩ ∧
    (∀ q, q ≠ sTempJSON → q ≠ sTempIMG →
      (checkArchive fs rebuild di sFile sArchiveFile sTempJSON sTempIMG).1 q =
        fs q) := by
  have h1 := fun q =>
    (writeDisk_json_spec fs sTempJSON di true (Bool.or_true _) hTJj hTJi hjson q).2
  have h2 := fun q =>
    (writeDisk_binary_spec (writeDisk fs sTempJSON di true).1 sTempIMG di true
      (Bool.or_true _) hTIj hok q).2
  have hTI2 : (writeDisk (writeDisk fs sTempJSON di true).1 sTempIMG di true).1
      sTempIMG = some ⟨di.binary, true⟩ := by
    rw [h2 sTempIMG, if_pos rfl, hTIi]
  have hARC2 : (writeDisk (writeDisk fs sTempJSON di true).1 sTempIMG di true).1
      sArchiveFile = some arch := by
    rw [h2 sArchiveFile, if_neg hne3, h1 sArchiveFile, if_neg hne2, hfs]
  have hTJ2 : (writeDisk (writeDisk fs sTempJSON di true).1 sTempIMG di true).1
      sTempJSON = some ⟨di.json, false⟩ := by
    rw [h2 sTempJSON, if_neg hne1, h1 sTempJSON, if_pos rfl]
  have hcmp : compareDisks
      (writeDisk (writeDisk fs sTempJSON di true).1 sTempIMG di true).1
      sTempIMG sArchiveFile = false := by
    unfold compareDisks readFileBytes
    rw [hTI2, hARC2]
    simp [hmis]
  have hca : checkArchive fs rebuild di sFile sArchiveFile sTempJSON sTempIMG =
      ((writeDisk (writeDisk fs sTempJSON di true).1 sTempIMG di true).1, true) := by
    simp only [checkArchive, harc, hcmp]
    simp
  rw [hca]
  refine ⟨rfl, hTI2, hTJ2, ?_⟩
  intro q hq1 hq2
  rw [h2 q, if_neg hq2, h1 q, if_neg hq1]

/-- Witness for C1 (amended) at the concrete mismatch scenario of the
counterexample, in commit mode. -/
theorem claim_C1_witness :
    (checkArchive fsC1 true diC1 "C.json" "A.img" "T.json" "T.img").2 = true ∧
    (checkArchive fsC1 true diC1 "C.json" "A.img" "T.json" "T.img").1 "T.img" =
      some ⟨diC1.binary, true⟩ ∧
    (checkArchive fsC1 true diC1 "C.json" "A.img" "T.json" "T.img").1 "T.json" =
      some ⟨diC1.json, false⟩ ∧
    (∀ q, q ≠ "T.json" → q ≠ "T.img" →
      (checkArchive fsC1 true diC1 "C.json" "A.img" "T.json" "T.img").1 q =
        fsC1 q) :=
  claim_C1_amended fsC1 true diC1 "C.json" "A.img" "T.json" "T.img"
    (by decide) (by decide) (by decide) (by decide) (by decide) (by decide)
    rfl (by decide) (by decide) (by decide) ⟨[0, 1], false⟩ (by decide) (by decide)

/-- C10: `compareDisks` returns false whenever either file cannot be
read, and true exactly when both are read and byte-equal; consequently
in the `--checkarchive` protocol a missing/unreadable archived binary
is reported through the same "unsuccessfully rebuilt" warning rather
than as a distinct I/O failure. -/
theorem claim_C10_theorem (fs : FS) (s1 s2 : String) :
    ((fs s1 = none ∨ fs s2 = none) → compareDisks fs s1 s2 = false) ∧
    (compareDisks fs s1 s2 = true ↔
      ∃ b1 b2, readFileBytes fs s1 = some b1 ∧ readFileBytes fs s2 = some b2 ∧
        b1 = b2) ∧
    (∀ (rebuild : Bool) (di : DiskHandle) (sFile sTempJSON sTempIMG : String),
      endsWithPlain s2 ".img" = true → fs s2 = none →
      s2 ≠ sTempJSON → s2 ≠ sTempIMG →
      (checkArchive fs rebuild di sFile s2 sTempJSON sTempIMG).2 = true) := by
  refine ⟨?_, ?_, ?_⟩
  · intro h
    unfold compareDisks readFileBytes
    rcases h with h | h
    · simp [h]
    · cases hx : fs s1 <;> simp [h, hx]
  · unfold compareDisks readFileBytes
    cases hx : fs s1 <;> cases hy : fs s2 <;> simp [hx, hy]
  · intro rebuild di sFile sTempJSON sTempIMG harc hmiss hneJ hneI
    have hframe : (writeDisk (writeDisk fs sTempJSON di true).1 sTempIMG di true).1
        s2 = none := by
      rw [writeDisk_frame _ _ _ _ _ hneI, writeDisk_frame _ _ _ _ _ hneJ, hmiss]
    have hcmp : compareDisks
        (writeDisk (writeDisk fs sTempJSON di true).1 sTempIMG di true).1
        sTempIMG s2 = false := by
      unfold compareDisks readFileBytes
      rw [hframe]
      cases hx : (writeDisk (writeDisk fs sTempJSON di true).1 sTempIMG di true).1
          sTempIMG <;> simp [hx]
    simp only [checkArchive, harc, hcmp]
    simp

/-- Witness for C10: comparing against a missing file is false, and a
missing archived binary flags the entry. -/
theorem claim_C10_witness :
    compareDisks fsC1 "A.img" "missing.img" = false ∧
    (checkArchive fsC1 false diC1 "C.json" "missing.img" "T.json" "T.img").2 =
      true :=
  ⟨(claim_C10_theorem fsC1 "A.img" "missing.img").1 (Or.inr (by decide)),
    (claim_C10_theorem fsC1 "A.img" "missing.img").2.2 false diC1 "C.json"
      "T.json" "T.img" (by decide) (by decide) (by decide) (by decide)⟩

end DiskDump
